import Mathlib

/-!
Shallow embedding of the oxygen canonical dynamic-value codec.

The Rust sources embedded here:
* src/types/value.rs       — the DocumentValue tree, its canonical Serialize
                             impl (map sorting), bytes_as_arrays, get.
* src/types/identifier.rs  — Identifier and its dual-mode (de)serialization.
* src/types/bytes.rs       — Bytes and StaticBytes and their serialization.
* src/types/version.rs     — Version (newtype over u32).
* src/serializer/to_value.rs, map.rs, vec.rs — the ToDashValue value builder.

Modelling conventions:
* Rust strings are represented by their UTF-8 byte sequences (List Nat);
  the canonical map sort compares keys via key.as_bytes(), so this is the
  faithful carrier.
* u8 / u32 / u64 values are represented as Nat; the one place the source
  truncates (the "Version" interception does "u as u32") is modelled
  explicitly with % 2 ^ 32.
* f64 leaves are carried opaquely as their bit pattern (a Nat); no claim
  depends on floating-point arithmetic, the codec only moves floats around.
* The serde wire level is modelled by the Wire inductive: it records the
  exact sequence of serializer calls a Serialize impl performs.  Both wire
  formats used by the repo (serde_json for text, serde_cbor for binary) are
  deterministic functions of that call structure, so equal Wire values give
  byte-identical encoded output in either format.
* Rust panics (the panic! arms of serialize_newtype_struct) are modelled as
  a distinguished fatal error outcome.
-/

/-- UTF-8 byte sequence of an ASCII string literal, used for the wrapper
names and concrete keys appearing in the development. -/
def strLit (s : String) : List Nat := s.toList.map Char.toNat

/-- Identifier (src/types/identifier.rs): a content identifier holding an
owned byte vector.  The struct has a single public field data. -/
structure Identifier where
  data : List Nat
deriving DecidableEq, Repr

/-- From(Vec(u8)) for Identifier (src/types/identifier.rs lines 77-81):
wraps the vector verbatim, with no length check of any kind. -/
def Identifier.fromVec (v : List Nat) : Identifier := ⟨v⟩

/-- StaticBytes (src/types/bytes.rs): a fixed-size byte array of length N
(N defaults to 32 in the source).  The length is part of the type. -/
structure StaticBytes (N : Nat) where
  data : List Nat
  len_eq : data.length = N
deriving DecidableEq

/-- From([u8; S]) for StaticBytes (src/types/bytes.rs lines 84-88): the
array is stored as-is; a wrong-length input is impossible at the type
level, mirroring the const-generic parameter in the source. -/
def StaticBytes.fromArray (N : Nat) (d : List Nat) (h : d.length = N) :
    StaticBytes N := ⟨d, h⟩

/-- The dynamic value tree DocumentValue (src/types/value.rs lines 20-34).
The Map variant holds the entries of the backing HashMap in its (arbitrary)
iteration order; Map keys are byte strings. -/
inductive DocumentValue where
  | bool : Bool → DocumentValue
  | str : List Nat → DocumentValue
  | float : Nat → DocumentValue
  | integer : Int → DocumentValue
  | uinteger : Nat → DocumentValue
  | version : Nat → DocumentValue
  | map : List (List Nat × DocumentValue) → DocumentValue
  | array : List DocumentValue → DocumentValue
  | identifier : Identifier → DocumentValue
  | bytes : List Nat → DocumentValue
  | staticBytes : List Nat → DocumentValue
  | null : DocumentValue

/-- Default for DocumentValue is Null (src/types/value.rs lines 36-40).
This is what std mem take leaves behind in replace_bytes_with_array. -/
def DocumentValue.default : DocumentValue := .null

/-- Lexicographic comparison of byte slices, as produced by
key_a.cmp(key_b) on Rust slices of equal length. -/
def bytesCmp : List Nat → List Nat → Ordering
  | [], [] => .eq
  | [], _ :: _ => .lt
  | _ :: _, [] => .gt
  | a :: as, b :: bs =>
    match compare a b with
    | .eq => bytesCmp as bs
    | o => o

/-- The canonical map-key comparator from the Map arm of the DocumentValue
Serialize impl (src/types/value.rs lines 67-78): compare byte lengths
first, and fall back to lexicographic byte order on equal lengths. -/
def keyCmp (a b : List Nat) : Ordering :=
  match compare a.length b.length with
  | .lt => .lt
  | .eq => bytesCmp a b
  | .gt => .gt

/-- The non-strict entry order used to sort map entries before emission:
entry a precedes entry b when the comparator does not say greater. -/
def entryLe (a b : List Nat × DocumentValue) : Prop :=
  keyCmp a.1 b.1 ≠ .gt

instance : DecidableRel entryLe := fun a b =>
  inferInstanceAs (Decidable (keyCmp a.1 b.1 ≠ .gt))

/-- Sorting of map entries before emission, modelling
map.iter().sorted_by(comparator) in the Serialize impl
(src/types/value.rs lines 67-78).  sorted_by is a stable comparison sort;
insertion sort is one. -/
def sortEntries (l : List (List Nat × DocumentValue)) :
    List (List Nat × DocumentValue) :=
  List.insertionSort entryLe l

/-- The base64 standard alphabet (the base64 crate encode used by Bytes
and StaticBytes in src/types/bytes.rs), as ASCII codes. -/
def b64Alphabet : List Nat :=
  strLit "ABCDEFGHIJKLMNOPQRSTUVWXYZabcdefghijklmnopqrstuvwxyz0123456789+/"

/-- One base64 output character for a 6-bit value. -/
def b64Char (d : Nat) : Nat := b64Alphabet.getD d 0

/-- base64 standard encoding with padding, modelling base64 encode applied
to Bytes and StaticBytes in human-readable mode (src/types/bytes.rs).
61 is the ASCII code of the padding character. -/
def base64Encode : List Nat → List Nat
  | a :: b :: c :: rest =>
    let n := a * 65536 + b * 256 + c
    b64Char (n / 262144 % 64) :: b64Char (n / 4096 % 64) ::
      b64Char (n / 64 % 64) :: b64Char (n % 64) :: base64Encode rest
  | [a, b] =>
    let n := a * 65536 + b * 256
    [b64Char (n / 262144 % 64), b64Char (n / 4096 % 64),
      b64Char (n / 64 % 64), 61]
  | [a] =>
    let n := a * 65536
    [b64Char (n / 262144 % 64), b64Char (n / 4096 % 64), 61, 61]
  | [] => []

/-- The Bitcoin base58 alphabet used by the bs58 crate
(src/types/identifier.rs), as ASCII codes. -/
def b58Alphabet : List Nat :=
  strLit "123456789ABCDEFGHJKLMNPQRSTUVWXYZabcdefghijkmnopqrstuvwxyz"

/-- One base58 output character for a digit below 58. -/
def b58Char (d : Nat) : Nat := b58Alphabet.getD d 0

/-- bs58 encode (the encoding used by Identifier in human-readable mode):
each leading zero byte becomes the first alphabet character, and the
remaining bytes, read as a big-endian number, are written in base 58. -/
def b58Encode (bytes : List Nat) : List Nat :=
  List.replicate (bytes.takeWhile (· == 0)).length (b58Char 0) ++
    (Nat.digits 58 (Nat.ofDigits 256 bytes.reverse)).reverse.map b58Char

/-- Mapping one base58 character back to its digit; fails on characters
outside the alphabet. -/
def b58DigitOf (c : Nat) : Option Nat := b58Alphabet.indexOf? c

/-- Decoding a list of base58 characters to digits, failing on the first
character outside the alphabet. -/
def b58DigitsOf : List Nat → Option (List Nat)
  | [] => some []
  | c :: cs =>
    match b58DigitOf c, b58DigitsOf cs with
    | some d, some ds => some (d :: ds)
    | _, _ => none

/-- The error type (src/error.rs), with panics of the builder modelled as
the distinguished fatal outcome. -/
inductive Error where
  | serializationError : String → Error
  | deserializationError : String → Error
  | unsupported : String → Error
  | fatal : String → Error
deriving DecidableEq, Repr

/-- bs58 decode into a byte vector: every character must belong to the
alphabet, leading first-alphabet-characters become leading zero bytes, and
the remaining digits, read in base 58, are written out in base 256. -/
def b58Decode (s : List Nat) : Except Error (List Nat) :=
  match b58DigitsOf s with
  | none => .error (.deserializationError "invalid base58 character")
  | some vals =>
    .ok (List.replicate (vals.takeWhile (· == 0)).length 0 ++
      (Nat.digits 256 (Nat.ofDigits 58 vals.reverse)).reverse)

/-- The serde data-model shape a Serialize impl hands to a format
serializer: the exact call structure the DocumentValue Serialize impl
performs.  serde_json (text form) and serde_cbor (binary form) are
deterministic functions of this structure, so equal Wire values yield
byte-identical output in both wire forms. -/
inductive Wire where
  | wbool : Bool → Wire
  | wstr : List Nat → Wire
  | wbytes : List Nat → Wire
  | wf64 : Nat → Wire
  | wi64 : Int → Wire
  | wu64 : Nat → Wire
  | wu32 : Nat → Wire
  | wseq : List Wire → Wire
  | wmap : List (List Nat × Wire) → Wire
  | wnone : Wire

/-- The Serialize impl of DocumentValue (src/types/value.rs lines 42-88),
for a format serializer whose is_human_readable answer is the human flag
(true for serde_json, false for serde_cbor).  Scalars serialize directly;
Bytes and StaticBytes delegate to their impls in src/types/bytes.rs
(base64 string when human, raw bytes otherwise); Identifier delegates to
src/types/identifier.rs (a transparent newtype_struct around a base58
string when human, raw bytes otherwise); arrays serialize elementwise;
maps are re-sorted with the canonical comparator on every encode and
emitted in that order. -/
def toWire (human : Bool) : DocumentValue → Wire
  | .bool b => .wbool b
  | .str t => .wstr t
  | .bytes b => if human then .wstr (base64Encode b) else .wbytes b
  | .staticBytes b => if human then .wstr (base64Encode b) else .wbytes b
  | .float f => .wf64 f
  | .integer i => .wi64 i
  | .uinteger u => .wu64 u
  | .version v => .wu32 v
  | .identifier id =>
    if human then .wstr (b58Encode id.data) else .wbytes id.data
  | .array l => .wseq (l.attach.map fun v => toWire human v.1)
  | .map l =>
    .wmap ((sortEntries l).attach.map fun e => (e.1.1, toWire human e.1.2))
  | .null => .wnone
termination_by v => sizeOf v
decreasing_by
  · have h1 := List.sizeOf_lt_of_mem v.2
    simp only [DocumentValue.array.sizeOf_spec]
    omega
  · have hmem : e.1 ∈ l := by
      have hperm := List.perm_insertionSort entryLe l
      exact hperm.mem_iff.mp (by simpa [sortEntries] using e.2)
    have h1 := List.sizeOf_lt_of_mem hmem
    have h2 : sizeOf e.1.2 < sizeOf e.1 := by
      obtain ⟨k, v⟩ := e.1
      simp only [Prod.mk.sizeOf_spec]
      omega
    simp only [DocumentValue.map.sizeOf_spec]
    omega

/-- The declared wrapper name intercepted for Version
(src/serializer/to_value.rs line 132). -/
def versionName : List Nat := strLit "Version"

/-- The declared wrapper name intercepted for StaticBytes
(src/serializer/to_value.rs line 142). -/
def staticBytesName : List Nat := strLit "StaticBytes"

/-- The declared wrapper name intercepted for Bytes
(src/serializer/to_value.rs line 152). -/
def bytesName : List Nat := strLit "Bytes"

/-- The declared wrapper name intercepted for Identifier
(src/serializer/to_value.rs line 162). -/
def identifierName : List Nat := strLit "identifier"

/-- The shapes a typed record can present to a serde Serializer: one
constructor per Serializer entry point of src/serializer/to_value.rs.
Integer widths i8/i16/i32 widen to i64 and u8/u16/u32 to u64 inside the
source serializer itself, so the signed widths share the i64 constructor;
u32 is kept separate because Version serializes through serialize_u32.
Rust chars are carried as their UTF-8 bytes. -/
inductive SerInput where
  | bool : Bool → SerInput
  | i64 : Int → SerInput
  | u64 : Nat → SerInput
  | u32 : Nat → SerInput
  | f64 : Nat → SerInput
  | char : List Nat → SerInput
  | str : List Nat → SerInput
  | bytes : List Nat → SerInput
  | none : SerInput
  | some : SerInput → SerInput
  | unit : SerInput
  | unitStruct : List Nat → SerInput
  | unitVariant : List Nat → Nat → List Nat → SerInput
  | newtypeStruct : List Nat → SerInput → SerInput
  | newtypeVariant : List Nat → Nat → List Nat → SerInput → SerInput
  | seq : List SerInput → SerInput
  | tuple : List SerInput → SerInput
  | tupleStruct : List Nat → Nat → SerInput
  | tupleVariant : List Nat → Nat → List Nat → Nat → SerInput
  | mapIn : List (SerInput × SerInput) → SerInput
  | structIn : List Nat → List (List Nat × SerInput) → SerInput
  | structVariant : List Nat → Nat → List Nat → Nat → SerInput

/-- Whether a value is the Version leaf, the test done by
matches(new_value, Value::Version(_)) in SerializeMap::serialize_value
(src/serializer/map.rs line 50). -/
def isVersionValue : DocumentValue → Bool
  | .version _ => true
  | _ => false

/-- HashMap insert (src/serializer/map.rs line 54): replaces the value of
an existing key, otherwise adds the binding. -/
def mapInsert (m : List (List Nat × DocumentValue)) (k : List Nat)
    (v : DocumentValue) : List (List Nat × DocumentValue) :=
  if m.any (fun p => p.1 == k) then
    m.map (fun p => if p.1 == k then (k, v) else p)
  else m ++ [(k, v)]

/-- Modelled from the spec: serializer/to_string.rs (ToStringSerializer,
used by SerializeMap::serialize_key) is not under src/.  Per the spec,
keyed maps map to Map with string keys and struct field names become
string keys, so the key serializer renders a string input as itself and
rejects every other shape with a SerializationError. -/
def toStringSerializer : SerInput → Except Error (List Nat)
  | .str s => .ok s
  | _ => .error (.serializationError "map key must be a string")

mutual

/-- The value builder (impl Serializer for ToDashValue,
src/serializer/to_value.rs lines 24-257) applied to an input shape.  The
skipVersion argument is the configuration flag of the ToDashValue value
the input is serialized with.  The four panic arms of
serialize_newtype_struct are modelled as the fatal error outcome. -/
def toDashValue (skipVersion : Bool) : SerInput → Except Error DocumentValue
  | .bool b => .ok (.bool b)
  | .i64 n => .ok (.integer n)
  | .u64 n => .ok (.uinteger n)
  | .u32 n => .ok (.uinteger n)
  | .f64 bits => .ok (.float bits)
  | .char utf8 => .ok (.str utf8)
  | .str s => .ok (.str s)
  | .bytes b => .ok (.bytes b)
  | .none => .ok .null
  | .some v => toDashValue skipVersion v
  | .unit => .ok .null
  | .unitStruct _ => .ok .null
  | .unitVariant _ _ variant => .ok (.str variant)
  | .newtypeStruct name inner =>
    if name = versionName then
      match toDashValue skipVersion inner with
      | .ok (.uinteger u) => .ok (.version (u % 2 ^ 32))
      | .ok _ => .error (.fatal "expected Value::Bytes")
      | .error e => .error e
    else if name = staticBytesName then
      match toDashValue skipVersion inner with
      | .ok (.staticBytes b) => .ok (.staticBytes b)
      | .ok _ => .error (.fatal "expected Value::StaticBytes")
      | .error e => .error e
    else if name = bytesName then
      match toDashValue skipVersion inner with
      | .ok (.bytes b) => .ok (.bytes b)
      | .ok _ => .error (.fatal "expected Value::Bytes")
      | .error e => .error e
    else if name = identifierName then
      match toDashValue skipVersion inner with
      | .ok (.bytes b) => .ok (.identifier ⟨b⟩)
      | .ok _ => .error (.fatal "expected Value::Bytes")
      | .error e => .error e
    else toDashValue skipVersion inner
  | .newtypeVariant _ _ _ _ => .error (.unsupported "new type variant")
  | .seq elems =>
    match serializeElems elems with
    | .ok vs => .ok (.array vs)
    | .error e => .error e
  | .tuple elems =>
    match serializeElems elems with
    | .ok vs => .ok (.array vs)
    | .error e => .error e
  | .tupleStruct _ _ =>
    .error (.unsupported "tuple struct is not supported yet")
  | .tupleVariant _ _ _ _ =>
    .error (.unsupported "tuple variant is not supported yet")
  | .mapIn entries =>
    match serializeMapEntries skipVersion [] entries with
    | .ok m => .ok (.map m)
    | .error e => .error e
  | .structIn _ fields =>
    match serializeFields skipVersion [] fields with
    | .ok m => .ok (.map m)
    | .error e => .error e
  | .structVariant _ _ _ _ =>
    .error (.unsupported "struct variant is not supported")

/-- SerializeVec::serialize_element (src/serializer/vec.rs lines 18-24):
every element is serialized with ToDashValue::default(), whose
skip_version flag is false. -/
def serializeElems : List SerInput → Except Error (List DocumentValue)
  | [] => .ok []
  | v :: rest =>
    match toDashValue false v with
    | .error e => .error e
    | .ok val =>
      match serializeElems rest with
      | .error e => .error e
      | .ok vs => .ok (val :: vs)

/-- SerializeStruct::serialize_field (src/serializer/map.rs lines 63-76),
which goes through SerializeMap::serialize_value: each field value is
serialized with ToDashValue::default() (skip_version false there); a
Version result is dropped when this map builder was created with
skip_version true, every other result is inserted. -/
def serializeFields (skip : Bool)
    (acc : List (List Nat × DocumentValue)) :
    List (List Nat × SerInput) →
      Except Error (List (List Nat × DocumentValue))
  | [] => .ok acc
  | (k, v) :: rest =>
    match toDashValue false v with
    | .error e => .error e
    | .ok val =>
      if isVersionValue val && skip then serializeFields skip acc rest
      else serializeFields skip (mapInsert acc k val) rest

/-- SerializeMap::serialize_key / serialize_value
(src/serializer/map.rs lines 32-56): the key goes through the string
serializer, the value through ToDashValue::default(), and the Version
filter applies as for struct fields. -/
def serializeMapEntries (skip : Bool)
    (acc : List (List Nat × DocumentValue)) :
    List (SerInput × SerInput) →
      Except Error (List (List Nat × DocumentValue))
  | [] => .ok acc
  | (kIn, vIn) :: rest =>
    match toStringSerializer kIn with
    | .error e => .error e
    | .ok k =>
      match toDashValue false vIn with
      | .error e => .error e
      | .ok val =>
        if isVersionValue val && skip then
          serializeMapEntries skip acc rest
        else serializeMapEntries skip (mapInsert acc k val) rest

end

/-- DocumentValue::is_container (src/types/value.rs lines 256-258). -/
def DocumentValue.is_container : DocumentValue → Bool
  | .array _ => true
  | .map _ => true
  | _ => false

/-- DocumentValue::replace_bytes_with_array (src/types/value.rs lines
260-289), translated literally: std mem take first replaces the slot with
the default value Null and hands out the old value; the match then writes
an Array of UInteger bytes back for the three byte-ish variants, while
every other variant falls into the empty arm, leaving the Null put there
by mem take. -/
def DocumentValue.replace_bytes_with_array : DocumentValue → DocumentValue
  | .identifier id => .array (id.data.map fun v => .uinteger v)
  | .bytes b => .array (b.map fun v => .uinteger v)
  | .staticBytes b => .array (b.map fun v => .uinteger v)
  | _ => .null

/-- DocumentValue::bytes_as_arrays (src/types/value.rs lines 189-221),
translated from the explicit work-list: a popped Array or Map walks its
children, pushing container children (which are then processed by this
same match) and passing the rest through replace_bytes_with_array; a
popped Identifier, Bytes or StaticBytes slot (only possible for the root)
is overwritten with Null; anything else is left as is. -/
def DocumentValue.bytes_as_arrays : DocumentValue → DocumentValue
  | .array l =>
    .array (l.attach.map fun v =>
      if v.1.is_container then v.1.bytes_as_arrays
      else v.1.replace_bytes_with_array)
  | .map l =>
    .map (l.attach.map fun e =>
      (e.1.1,
        if e.1.2.is_container then e.1.2.bytes_as_arrays
        else e.1.2.replace_bytes_with_array))
  | .identifier _ => .null
  | .bytes _ => .null
  | .staticBytes _ => .null
  | v => v
termination_by v => sizeOf v
decreasing_by
  · have h1 := List.sizeOf_lt_of_mem v.2
    simp only [DocumentValue.array.sizeOf_spec]
    omega
  · have h1 := List.sizeOf_lt_of_mem e.2
    have h2 : sizeOf e.1.2 < sizeOf e.1 := by
      obtain ⟨k, v⟩ := e.1
      simp only [Prod.mk.sizeOf_spec]
      omega
    simp only [DocumentValue.map.sizeOf_spec]
    omega

/-- DocumentValue::get with a string index (src/types/value.rs lines
223-236, DashValueIndex::String arm): a Map looks the key up, anything
else gives none. -/
def DocumentValue.get (v : DocumentValue) (k : List Nat) :
    Option DocumentValue :=
  match v with
  | .map m => (m.find? fun p => p.1 == k).map fun p => p.2
  | _ => .none

/-- Identifier::serialize (src/types/identifier.rs lines 12-20) through a
format serializer: the value is a transparent newtype_struct around
IdInternal (lines 46-59), which writes the base58 string of the bytes in
human-readable mode and the raw byte string otherwise. -/
def Identifier.serializeWire (human : Bool) (id : Identifier) : Wire :=
  if human then .wstr (b58Encode id.data) else .wbytes id.data

mutual

/-- The generic Deserialize visitor of DocumentValue
(src/types/value.rs lines 90-184) on the wire shapes it understands:
booleans, signed 64-bit integers, strings, byte strings, absent values
and sequences / maps (whose keys must be strings); every shape the
visitor does not implement falls to the serde default, an error. -/
def wireToValue : Wire → Except Error DocumentValue
  | .wbool b => .ok (.bool b)
  | .wi64 i => .ok (.integer i)
  | .wstr s => .ok (.str s)
  | .wbytes b => .ok (.bytes b)
  | .wnone => .ok .null
  | .wseq l =>
    match wireListToValues l with
    | .ok vs => .ok (.array vs)
    | .error e => .error e
  | .wmap l =>
    match wireEntriesToValues l with
    | .ok m => .ok (.map m)
    | .error e => .error e
  | _ => .error (.deserializationError "invalid type")

/-- Sequence elements decoded in order by the visitor (visit_seq). -/
def wireListToValues : List Wire → Except Error (List DocumentValue)
  | [] => .ok []
  | w :: ws =>
    match wireToValue w with
    | .error e => .error e
    | .ok v =>
      match wireListToValues ws with
      | .error e => .error e
      | .ok vs => .ok (v :: vs)

/-- Map entries decoded in order by the visitor (visit_map): keys must be
strings, values decode recursively, and insertion goes through the
HashMap. -/
def wireEntriesToValues : List (List Nat × Wire) →
    Except Error (List (List Nat × DocumentValue))
  | [] => .ok []
  | (k, w) :: ws =>
    match wireToValue w with
    | .error e => .error e
    | .ok v =>
      match wireEntriesToValues ws with
      | .error e => .error e
      | .ok m => .ok (mapInsert m k v)

end

/-- Identifier::deserialize (src/types/identifier.rs lines 22-44): in
human-readable mode the wire item must be a string, which is base58
decoded (failing with a deserialization error on foreign characters) and
wrapped via From(Vec(u8)); otherwise a DocumentValue is decoded
generically and must come out as a Bytes leaf, whose bytes are wrapped
via From(Vec(u8)). -/
def Identifier.deserializeWire (human : Bool) (w : Wire) :
    Except Error Identifier :=
  if human then
    match w with
    | .wstr s =>
      match b58Decode s with
      | .ok bs => .ok (Identifier.fromVec bs)
      | .error e => .error e
    | _ => .error (.deserializationError "expected a string")
  else
    match wireToValue w with
    | .ok (.bytes bs) => .ok (Identifier.fromVec bs)
    | .ok _ => .error (.deserializationError "expected bytes")
    | .error e => .error e

theorem natCompare_swap (a b : Nat) : compare b a = (compare a b).swap := by
  rcases Nat.lt_trichotomy a b with h | h | h
  · rw [Nat.compare_eq_lt.mpr h, Nat.compare_eq_gt.mpr h]
    rfl
  · subst h
    rw [Nat.compare_eq_eq.mpr rfl]
    rfl
  · rw [Nat.compare_eq_gt.mpr h, Nat.compare_eq_lt.mpr h]
    rfl

theorem bytesCmp_eq_iff : ∀ {a b : List Nat}, bytesCmp a b = .eq ↔ a = b := by
  intro a
  induction a with
  | nil => intro b; cases b <;> simp [bytesCmp]
  | cons x xs ih =>
    intro b
    cases b with
    | nil => simp [bytesCmp]
    | cons y ys =>
      simp only [bytesCmp]
      cases h : compare x y with
      | lt =>
        have hxy : x < y := Nat.compare_eq_lt.mp h
        constructor
        · intro hc; simp at hc
        · intro hc
          injection hc with h1 h2
          omega
      | eq =>
        have hxy : x = y := Nat.compare_eq_eq.mp h
        subst hxy
        simp [ih]
      | gt =>
        have hxy : y < x := Nat.compare_eq_gt.mp h
        constructor
        · intro hc; simp at hc
        · intro hc
          injection hc with h1 h2
          omega

theorem bytesCmp_swap : ∀ (a b : List Nat), bytesCmp b a = (bytesCmp a b).swap := by
  intro a
  induction a with
  | nil => intro b; cases b <;> simp [bytesCmp, Ordering.swap]
  | cons x xs ih =>
    intro b
    cases b with
    | nil => simp [bytesCmp, Ordering.swap]
    | cons y ys =>
      simp only [bytesCmp, natCompare_swap x y]
      cases compare x y with
      | lt => rfl
      | eq => exact ih ys
      | gt => rfl

theorem bytesCmp_lt_iff : ∀ {a b : List Nat},
    bytesCmp a b = .lt ↔ List.Lex (· < ·) a b := by
  intro a
  induction a with
  | nil =>
    intro b
    cases b with
    | nil =>
      constructor
      · intro hc; simp [bytesCmp] at hc
      · intro hl; cases hl
    | cons y ys => exact ⟨fun _ => List.Lex.nil, fun _ => rfl⟩
  | cons x xs ih =>
    intro b
    cases b with
    | nil =>
      constructor
      · intro hc; simp [bytesCmp] at hc
      · intro hl; exact absurd hl (List.Lex.not_nil_right _ _)
    | cons y ys =>
      simp only [bytesCmp]
      cases h : compare x y with
      | lt =>
        have hxy : x < y := Nat.compare_eq_lt.mp h
        exact ⟨fun _ => List.Lex.rel hxy, fun _ => rfl⟩
      | eq =>
        have hxy : x = y := Nat.compare_eq_eq.mp h
        subst hxy
        rw [show (match Ordering.eq with
          | .eq => bytesCmp xs ys
          | o => o) = bytesCmp xs ys from rfl, ih]
        constructor
        · exact fun hl => List.Lex.cons hl
        · intro hl
          cases hl with
          | cons hl2 => exact hl2
          | rel hr => omega
      | gt =>
        have hxy : y < x := Nat.compare_eq_gt.mp h
        constructor
        · intro hc; simp at hc
        · intro hl
          cases hl with
          | cons => omega
          | rel hr => omega

theorem lexTrichotomy : ∀ (a b : List Nat),
    List.Lex (· < ·) a b ∨ a = b ∨ List.Lex (· < ·) b a := by
  intro a
  induction a with
  | nil =>
    intro b
    cases b with
    | nil => exact Or.inr (Or.inl rfl)
    | cons y ys => exact Or.inl List.Lex.nil
  | cons x xs ih =>
    intro b
    cases b with
    | nil => exact Or.inr (Or.inr List.Lex.nil)
    | cons y ys =>
      rcases Nat.lt_trichotomy x y with h | h | h
      · exact Or.inl (List.Lex.rel h)
      · subst h
        rcases ih ys with h2 | h2 | h2
        · exact Or.inl (List.Lex.cons h2)
        · subst h2
          exact Or.inr (Or.inl rfl)
        · exact Or.inr (Or.inr (List.Lex.cons h2))
      · exact Or.inr (Or.inr (List.Lex.rel h))

theorem lexAsymm : ∀ {a b : List Nat},
    List.Lex (· < ·) a b → ¬ List.Lex (· < ·) b a := by
  intro a b h
  induction h with
  | nil => exact List.Lex.not_nil_right _ _
  | @rel l1 l2 x y hr =>
    intro h2
    cases h2 with
    | rel hr2 => omega
    | cons _ => omega
  | @cons l1 l2 x hl ih =>
    intro h2
    cases h2 with
    | rel hr2 => omega
    | cons h3 => exact ih h3

theorem lexTrans : ∀ {a b c : List Nat},
    List.Lex (· < ·) a b → List.Lex (· < ·) b c → List.Lex (· < ·) a c := by
  intro a b c hab
  induction hab generalizing c with
  | nil =>
    intro hbc
    cases hbc with
    | rel _ => exact List.Lex.nil
    | cons _ => exact List.Lex.nil
  | @rel l1 l2 x y hr =>
    intro hbc
    cases hbc with
    | @rel _ _ _ z hr2 => exact List.Lex.rel (by omega)
    | cons _ => exact List.Lex.rel hr
  | @cons l1 l2 x hl ih =>
    intro hbc
    cases hbc with
    | @rel _ _ _ z hr2 => exact List.Lex.rel hr2
    | cons h3 => exact List.Lex.cons (ih h3)

/-- The order the specification prescribes for canonical map keys:
strictly shorter keys first, keys of equal byte length in strict
lexicographic byte order. -/
def specKeyLt (a b : List Nat) : Prop :=
  a.length < b.length ∨ (a.length = b.length ∧ List.Lex (· < ·) a b)

theorem keyCmp_lt_iff {a b : List Nat} : keyCmp a b = .lt ↔ specKeyLt a b := by
  unfold keyCmp specKeyLt
  cases h : compare a.length b.length with
  | lt =>
    have hl := Nat.compare_eq_lt.mp h
    simp [hl]
  | eq =>
    have hl := Nat.compare_eq_eq.mp h
    rw [show (match Ordering.eq with
      | Ordering.lt => Ordering.lt
      | Ordering.eq => bytesCmp a b
      | Ordering.gt => Ordering.gt) = bytesCmp a b from rfl, bytesCmp_lt_iff]
    constructor
    · intro hx; exact Or.inr ⟨hl, hx⟩
    · rintro (hx | ⟨-, hx⟩)
      · omega
      · exact hx
  | gt =>
    have hl := Nat.compare_eq_gt.mp h
    constructor
    · intro hc; simp at hc
    · rintro (hx | ⟨hx, -⟩) <;> omega

theorem keyCmp_eq_iff {a b : List Nat} : keyCmp a b = .eq ↔ a = b := by
  unfold keyCmp
  cases h : compare a.length b.length with
  | lt =>
    have hl := Nat.compare_eq_lt.mp h
    constructor
    · intro hc; simp at hc
    · rintro rfl; omega
  | eq => exact bytesCmp_eq_iff
  | gt =>
    have hl := Nat.compare_eq_gt.mp h
    constructor
    · intro hc; simp at hc
    · rintro rfl; omega

theorem keyCmp_swap (a b : List Nat) : keyCmp b a = (keyCmp a b).swap := by
  unfold keyCmp
  rw [natCompare_swap a.length b.length, bytesCmp_swap a b]
  cases compare a.length b.length <;> rfl

theorem keyCmp_gt_iff {a b : List Nat} : keyCmp a b = .gt ↔ specKeyLt b a := by
  rw [← keyCmp_lt_iff, keyCmp_swap a b]
  cases keyCmp a b <;> simp [Ordering.swap]

theorem specKeyLt_trans : ∀ {a b c : List Nat},
    specKeyLt a b → specKeyLt b c → specKeyLt a c := by
  rintro a b c (h1 | ⟨h1, hx1⟩) (h2 | ⟨h2, hx2⟩)
  · exact Or.inl (by omega)
  · exact Or.inl (by omega)
  · exact Or.inl (by omega)
  · exact Or.inr ⟨by omega, lexTrans hx1 hx2⟩

theorem specKeyLt_trichotomy (a b : List Nat) :
    specKeyLt a b ∨ a = b ∨ specKeyLt b a := by
  rcases Nat.lt_trichotomy a.length b.length with h | h | h
  · exact Or.inl (Or.inl h)
  · rcases lexTrichotomy a b with hx | hx | hx
    · exact Or.inl (Or.inr ⟨h, hx⟩)
    · exact Or.inr (Or.inl hx)
    · exact Or.inr (Or.inr (Or.inr ⟨h.symm, hx⟩))
  · exact Or.inr (Or.inr (Or.inl h))

theorem specKeyLt_asymm {a b : List Nat} (h : specKeyLt a b) :
    ¬ specKeyLt b a := by
  rcases h with h | ⟨h, hx⟩
  · rintro (h2 | ⟨h2, -⟩) <;> omega
  · rintro (h2 | ⟨-, hx2⟩)
    · omega
    · exact lexAsymm hx hx2

theorem specKeyLt_irrefl (a : List Nat) : ¬ specKeyLt a a := by
  intro h
  exact specKeyLt_asymm h h

/-- The key order as the source sort consumes it: not-greater under the
canonical comparator. -/
def keyLe (a b : List Nat) : Prop := keyCmp a b ≠ .gt

instance : DecidableRel keyLe := fun a b =>
  inferInstanceAs (Decidable (keyCmp a b ≠ .gt))

theorem keyLe_iff {a b : List Nat} : keyLe a b ↔ specKeyLt a b ∨ a = b := by
  unfold keyLe
  constructor
  · intro h
    cases hc : keyCmp a b with
    | lt => exact Or.inl (keyCmp_lt_iff.mp hc)
    | eq => exact Or.inr (keyCmp_eq_iff.mp hc)
    | gt => exact absurd hc h
  · rintro (h | rfl)
    · rw [keyCmp_lt_iff.mpr h]
      simp
    · rw [keyCmp_eq_iff.mpr rfl]
      simp

theorem entryLe_iff {a b : List Nat × DocumentValue} :
    entryLe a b ↔ specKeyLt a.1 b.1 ∨ a.1 = b.1 := keyLe_iff

instance : IsTotal (List Nat × DocumentValue) entryLe where
  total := by
    intro a b
    rw [entryLe_iff, entryLe_iff]
    rcases specKeyLt_trichotomy a.1 b.1 with h | h | h
    · exact Or.inl (Or.inl h)
    · exact Or.inl (Or.inr h)
    · exact Or.inr (Or.inl h)

instance : IsTrans (List Nat × DocumentValue) entryLe where
  trans := by
    intro a b c hab hbc
    rw [entryLe_iff] at hab hbc ⊢
    rcases hab with h1 | h1 <;> rcases hbc with h2 | h2
    · exact Or.inl (specKeyLt_trans h1 h2)
    · exact Or.inl (h2 ▸ h1)
    · exact Or.inl (h1 ▸ h2)
    · exact Or.inr (h1.trans h2)

instance : IsAntisymm (List Nat) keyLe where
  antisymm := by
    intro a b hab hba
    rw [keyLe_iff] at hab hba
    rcases hab with h1 | h1
    · rcases hba with h2 | h2
      · exact absurd h2 (specKeyLt_asymm h1)
      · exact h2.symm
    · exact h1

theorem sortEntries_sorted (l : List (List Nat × DocumentValue)) :
    List.Sorted entryLe (sortEntries l) :=
  List.sorted_insertionSort entryLe l

theorem sortEntries_perm (l : List (List Nat × DocumentValue)) :
    (sortEntries l).Perm l :=
  List.perm_insertionSort entryLe l

theorem entryLe_antisymm_key {a b : List Nat × DocumentValue}
    (hab : entryLe a b) (hba : entryLe b a) : a.1 = b.1 := by
  rw [entryLe_iff] at hab hba
  rcases hab with h1 | h1
  · rcases hba with h2 | h2
    · exact absurd h2 (specKeyLt_asymm h1)
    · exact h2.symm
  · exact h1

theorem eq_of_perm_of_sorted_nodupKeys :
    ∀ {l1 l2 : List (List Nat × DocumentValue)}, l1.Perm l2 →
      List.Sorted entryLe l1 → List.Sorted entryLe l2 →
      (l1.map Prod.fst).Nodup → l1 = l2 := by
  intro l1
  induction l1 with
  | nil =>
    intro l2 hp _ _ _
    exact hp.nil_eq
  | cons a t1 ih =>
    intro l2 hp hs1 hs2 hnd
    cases l2 with
    | nil =>
      have := hp.symm.nil_eq
      simp at this
    | cons b t2 =>
      by_cases hab : a = b
      · subst hab
        have ht : t1.Perm t2 := hp.cons_inv
        have hnd2 : (t1.map Prod.fst).Nodup := by
          rw [List.map_cons] at hnd
          exact hnd.of_cons
        rw [ih ht hs1.of_cons hs2.of_cons hnd2]
      · exfalso
        have ha2 : a ∈ b :: t2 := hp.mem_iff.mp (List.mem_cons_self a t1)
        have ha2t : a ∈ t2 := by
          rcases List.mem_cons.mp ha2 with h | h
          · exact absurd h hab
          · exact h
        have hb1 : b ∈ a :: t1 := hp.symm.mem_iff.mp (List.mem_cons_self b t2)
        have hb1t : b ∈ t1 := by
          rcases List.mem_cons.mp hb1 with h | h
          · exact absurd h.symm hab
          · exact h
        have h1 : entryLe a b := List.rel_of_sorted_cons hs1 b hb1t
        have h2 : entryLe b a := List.rel_of_sorted_cons hs2 a ha2t
        have hkey : a.1 = b.1 := entryLe_antisymm_key h1 h2
        rw [List.map_cons, List.nodup_cons] at hnd
        exact hnd.1 (hkey ▸ List.mem_map_of_mem Prod.fst hb1t)

theorem toWire_map (human : Bool) (l : List (List Nat × DocumentValue)) :
    toWire human (.map l) =
      .wmap ((sortEntries l).map fun e => (e.1, toWire human e.2)) := by
  rw [toWire]
  congr 1
  exact List.attach_map_coe (sortEntries l) (fun e => (e.1, toWire human e.2))

theorem toWire_array (human : Bool) (l : List DocumentValue) :
    toWire human (.array l) = .wseq (l.map fun v => toWire human v) := by
  rw [toWire]
  congr 1
  exact List.attach_map_coe l (fun v => toWire human v)

/-- C2: for any two Map values holding identical key-to-value pairs in
different insertion orders (a permutation of entries, with the unique-key
HashMap invariant), the Serialize impl emits identical wire structure in
the text mode (human true, serde_json) and in the binary mode (human
false, serde_cbor); both formats are deterministic functions of that
structure, so the encoded bytes agree as well. -/
theorem map_order_independence (human : Bool)
    (l1 l2 : List (List Nat × DocumentValue)) (hperm : l1.Perm l2)
    (hnd : (l1.map Prod.fst).Nodup) :
    toWire human (.map l1) = toWire human (.map l2) := by
  have hse : sortEntries l1 = sortEntries l2 := by
    apply eq_of_perm_of_sorted_nodupKeys
    · exact (sortEntries_perm l1).trans (hperm.trans (sortEntries_perm l2).symm)
    · exact sortEntries_sorted l1
    · exact sortEntries_sorted l2
    · exact (((sortEntries_perm l1).map Prod.fst).nodup_iff).mpr hnd
  rw [toWire_map, toWire_map, hse]

/-- C2 witness: two concrete two-entry maps with the same pairs inserted
in opposite orders serialize to the same wire structure in binary mode. -/
theorem map_order_independence_witness :
    toWire false (.map [(strLit "a", .uinteger 1), (strLit "bb", .uinteger 2)]) =
      toWire false
        (.map [(strLit "bb", .uinteger 2), (strLit "a", .uinteger 1)]) :=
  map_order_independence false _ _ (List.Perm.swap _ _ _) (by decide)

/-- C1: the Canonical Encoder emits Map entries sorted by ascending key
byte-length, then lexicographic byte order for equal lengths.  Part one
says the emitted entry sequence is exactly the canonically sorted entry
list (in either wire mode); part two says the emitted key sequence is
strictly ordered by the length-then-lexicographic order whenever the map
keys are unique; part three says a Map with exactly the keys ab, a, ba
emits them in the order a, ab, ba. -/
theorem canonical_map_sort :
    (∀ (human : Bool) (l : List (List Nat × DocumentValue)),
        toWire human (.map l) =
          .wmap ((sortEntries l).map fun e => (e.1, toWire human e.2)))
    ∧ (∀ l : List (List Nat × DocumentValue), (l.map Prod.fst).Nodup →
        ((sortEntries l).map Prod.fst).Pairwise specKeyLt)
    ∧ (∀ l : List (List Nat × DocumentValue),
        (l.map Prod.fst).Perm [strLit "ab", strLit "a", strLit "ba"] →
          (sortEntries l).map Prod.fst =
            [strLit "a", strLit "ab", strLit "ba"]) := by
  refine ⟨toWire_map, ?_, ?_⟩
  · intro l hnd
    have hs : ((sortEntries l).map Prod.fst).Pairwise keyLe :=
      (sortEntries_sorted l).map Prod.fst (fun a b h => h)
    have hndk : ((sortEntries l).map Prod.fst).Nodup :=
      (((sortEntries_perm l).map Prod.fst).nodup_iff).mpr hnd
    have hcomb := hs.and hndk
    exact hcomb.imp (by
      rintro a b ⟨hle, hne⟩
      rcases keyLe_iff.mp hle with h | h
      · exact h
      · exact absurd h hne)
  · intro l hp
    have hs : List.Sorted keyLe ((sortEntries l).map Prod.fst) :=
      (sortEntries_sorted l).map Prod.fst (fun a b h => h)
    have hperm : ((sortEntries l).map Prod.fst).Perm
        [strLit "a", strLit "ab", strLit "ba"] :=
      (((sortEntries_perm l).map Prod.fst).trans hp).trans
        (List.Perm.swap (strLit "a") (strLit "ab") [strLit "ba"])
    have hst : List.Sorted keyLe [strLit "a", strLit "ab", strLit "ba"] := by
      decide
    exact List.eq_of_perm_of_sorted hperm hs hst

/-- C1 witness: the sortedness and the concrete three-key instance, at a
concrete map holding the keys ab, a, ba. -/
theorem canonical_map_sort_witness :
    ((sortEntries [(strLit "ab", .uinteger 1), (strLit "a", .uinteger 2),
        (strLit "ba", .uinteger 3)]).map Prod.fst).Pairwise specKeyLt
    ∧ (sortEntries [(strLit "ab", .uinteger 1), (strLit "a", .uinteger 2),
        (strLit "ba", .uinteger 3)]).map Prod.fst =
      [strLit "a", strLit "ab", strLit "ba"] :=
  ⟨canonical_map_sort.2.1 _ (by decide), canonical_map_sort.2.2 _ (by decide)⟩

/-- C7: inputs whose serde shape is a tuple struct, a tuple variant, a
struct variant, or a newtype (tagged) variant with payload are rejected
by the value builder with an Unsupported error naming the shape; the
error return means no partial Value tree is handed to the caller, and the
payload of the tagged variant is never serialized. -/
theorem unsupported_shape_rejection (skip : Bool) (name : List Nat)
    (idx : Nat) (variant : List Nat) (len : Nat) (payload : SerInput) :
    toDashValue skip (.tupleStruct name len) =
        .error (.unsupported "tuple struct is not supported yet")
    ∧ toDashValue skip (.tupleVariant name idx variant len) =
        .error (.unsupported "tuple variant is not supported yet")
    ∧ toDashValue skip (.structVariant name idx variant len) =
        .error (.unsupported "struct variant is not supported")
    ∧ toDashValue skip (.newtypeVariant name idx variant payload) =
        .error (.unsupported "new type variant") := by
  refine ⟨?_, ?_, ?_, ?_⟩ <;> simp [toDashValue]

/-- C10: a unit enum variant serializes through serialize_unit_variant to
a String leaf holding the variant name, a success rather than the
Unsupported rejection reserved for payload-carrying variants. -/
theorem unit_variant_to_string (skip : Bool) (name : List Nat) (idx : Nat)
    (variant : List Nat) :
    toDashValue skip (.unitVariant name idx variant) = .ok (.str variant) := by
  simp [toDashValue]

/-- C3 counterexample: a record with a nested struct containing a Version
field, built with skip_version true, keeps the version key inside the
nested Map: nested values are serialized with ToDashValue::default()
(skip_version false), so only direct fields of the configured builder are
filtered.  The claim that Version leaves are dropped at any map-nesting
depth fails here. -/
theorem version_suppression_nested_retained :
    toDashValue true
        (.structIn (strLit "Outer")
          [(strLit "inner",
            .structIn (strLit "Inner")
              [(strLit "version", .newtypeStruct versionName (.u32 7))])])
      = .ok (.map [(strLit "inner",
          .map [(strLit "version", .version 7)])])
    ∧ ((DocumentValue.map [(strLit "inner",
          .map [(strLit "version", .version 7)])]).get (strLit "inner")).bind
        (fun m => m.get (strLit "version")) = some (.version 7) := by
  constructor
  · simp +decide [toDashValue, serializeFields, mapInsert, isVersionValue]
  · simp +decide [DocumentValue.get]

/-- C3 amended: with skip_version true the builder drops exactly those
Version leaves that are direct values of a map or struct serialized by
the configured builder itself; every nested struct or map value is built
by a fresh default builder whose skip_version flag is false, so a Version
leaf one map level deeper is retained; with skip_version false a direct
Version field is retained, its 32-bit value unchanged. -/
theorem version_suppression_amended (outer inner fieldName nestKey : List Nat)
    (u : Nat) :
    toDashValue true (.structIn outer
        [(fieldName, .newtypeStruct versionName (.u32 u))]) = .ok (.map [])
    ∧ toDashValue false (.structIn outer
        [(fieldName, .newtypeStruct versionName (.u32 u))]) =
        .ok (.map [(fieldName, .version (u % 2 ^ 32))])
    ∧ toDashValue true (.structIn outer
        [(nestKey, .structIn inner
          [(fieldName, .newtypeStruct versionName (.u32 u))])]) =
        .ok (.map [(nestKey, .map [(fieldName, .version (u % 2 ^ 32))])]) := by
  refine ⟨?_, ?_, ?_⟩ <;>
    simp [toDashValue, serializeFields, mapInsert, isVersionValue]

/-- C5 counterexample: intercepting the declared fixed-length byte
wrapper name with an inner value that serializes to a byte-string
primitive does not succeed with a StaticBytes leaf: the branch insists on
an already-tagged StaticBytes result, which the builder never produces
for a byte string, so the arm panics (the fatal outcome) instead. -/
theorem staticbytes_interception_fatal :
    toDashValue false (.newtypeStruct staticBytesName (.bytes [1, 2])) =
      .error (.fatal "expected Value::StaticBytes") := by
  simp +decide [toDashValue]

/-- C5 amended: for an inner value serializing to a byte-string
primitive, the variable-length byte wrapper name yields a Bytes leaf and
the identifier name yields an Identifier leaf, both holding the inner
bytes; an inner unsigned integer under the Version name yields a Version
leaf carrying the value truncated to 32 bits; but the fixed-length byte
wrapper name (StaticBytes) is a fatal mismatch on a byte-string inner,
because that branch requires an already-tagged StaticBytes leaf which the
builder never constructs. -/
theorem wrapper_interception (skip : Bool) (inner innerU : SerInput)
    (b : List Nat) (u : Nat)
    (hb : toDashValue skip inner = .ok (.bytes b))
    (hu : toDashValue skip innerU = .ok (.uinteger u)) :
    toDashValue skip (.newtypeStruct bytesName inner) = .ok (.bytes b)
    ∧ toDashValue skip (.newtypeStruct identifierName inner) =
        .ok (.identifier ⟨b⟩)
    ∧ toDashValue skip (.newtypeStruct staticBytesName inner) =
        .error (.fatal "expected Value::StaticBytes")
    ∧ toDashValue skip (.newtypeStruct versionName innerU) =
        .ok (.version (u % 2 ^ 32)) := by
  refine ⟨?_, ?_, ?_, ?_⟩ <;> simp +decide [toDashValue, hb, hu]

/-- C5 witness: the amended behavior at a concrete byte-string inner and
a concrete unsigned-integer inner. -/
theorem wrapper_interception_witness :
    toDashValue false (.newtypeStruct bytesName (.bytes [1, 2])) =
        .ok (.bytes [1, 2])
    ∧ toDashValue false (.newtypeStruct identifierName (.bytes [1, 2])) =
        .ok (.identifier ⟨[1, 2]⟩)
    ∧ toDashValue false (.newtypeStruct staticBytesName (.bytes [1, 2])) =
        .error (.fatal "expected Value::StaticBytes")
    ∧ toDashValue false (.newtypeStruct versionName (.u32 5)) =
        .ok (.version (5 % 2 ^ 32)) :=
  wrapper_interception false (.bytes [1, 2]) (.u32 5) [1, 2] 5
    (by simp [toDashValue]) (by simp [toDashValue])

/-- C6 counterexample: constructing an Identifier from a 3-byte vector
through From(Vec(u8)) succeeds, storing exactly the 3 bytes; no
construction-time error is raised for a length different from 32, and
the binary deserialization path likewise accepts the 3-byte identifier. -/
theorem identifier_no_length_check :
    Identifier.fromVec [1, 2, 3] = ⟨[1, 2, 3]⟩
    ∧ (Identifier.fromVec [1, 2, 3]).data.length = 3
    ∧ Identifier.deserializeWire false (.wbytes [1, 2, 3]) =
        .ok (Identifier.fromVec [1, 2, 3]) := by
  refine ⟨rfl, rfl, ?_⟩
  simp [Identifier.deserializeWire, wireToValue]

/-- C6 amended: Identifier construction accepts a byte sequence of any
length and stores it verbatim — never truncated, never padded, and never
an error; a declared construction-time length exists only for
StaticBytes, where it is enforced at the type level, so every StaticBytes
value carries exactly N bytes. -/
theorem identifier_construction_verbatim (v d : List Nat) (N : Nat)
    (h : d.length = N) :
    (Identifier.fromVec v).data = v
    ∧ (StaticBytes.fromArray N d h).data = d
    ∧ ∀ b : StaticBytes N, b.data.length = N :=
  ⟨rfl, rfl, fun b => b.len_eq⟩

/-- C6 witness: the amended statement at a concrete 3-byte vector and a
concrete 2-byte fixed array. -/
theorem identifier_construction_verbatim_witness :
    (Identifier.fromVec [1, 2, 3]).data = [1, 2, 3]
    ∧ (StaticBytes.fromArray 2 [5, 6] (by decide)).data = [5, 6]
    ∧ ∀ b : StaticBytes 2, b.data.length = 2 :=
  identifier_construction_verbatim [1, 2, 3] [5, 6] 2 (by decide)

theorem bytes_as_arrays_array_eq (l : List DocumentValue) :
    DocumentValue.bytes_as_arrays (.array l) =
      .array (l.map fun v =>
        if v.is_container then v.bytes_as_arrays
        else v.replace_bytes_with_array) := by
  rw [DocumentValue.bytes_as_arrays]
  congr 1
  exact List.attach_map_coe l (fun v =>
    if v.is_container then v.bytes_as_arrays
    else v.replace_bytes_with_array)

theorem bytes_as_arrays_map_eq (l : List (List Nat × DocumentValue)) :
    DocumentValue.bytes_as_arrays (.map l) =
      .map (l.map fun e =>
        (e.1,
          if e.2.is_container then e.2.bytes_as_arrays
          else e.2.replace_bytes_with_array)) := by
  rw [DocumentValue.bytes_as_arrays]
  congr 1
  exact List.attach_map_coe l (fun e =>
    (e.1,
      if e.2.is_container then e.2.bytes_as_arrays
      else e.2.replace_bytes_with_array))

/-- C4: bytes_as_arrays evaluated where it diverges from the claim.  A
tree that is itself a single Bytes leaf comes back as Null, not as the
Array of its bytes (the worklist match overwrites a popped byte-ish slot
with Null); and a Bool leaf inside a Map is destroyed to Null instead of
being left untouched (replace_bytes_with_array takes the value out with
std mem take and the non-byte-ish arm never puts it back).  The third
conjunct shows the one well-behaved case, a byte-ish leaf one level deep,
for contrast. -/
theorem bytes_as_arrays_divergence :
    DocumentValue.bytes_as_arrays (.bytes [1, 2, 3]) = .null
    ∧ DocumentValue.bytes_as_arrays (.map [(strLit "a", .bool true)]) =
        .map [(strLit "a", .null)]
    ∧ DocumentValue.bytes_as_arrays (.map [(strLit "a", .bytes [1, 2])]) =
        .map [(strLit "a", .array [.uinteger 1, .uinteger 2])] := by
  refine ⟨?_, ?_, ?_⟩
  · rw [DocumentValue.bytes_as_arrays]
  · rw [bytes_as_arrays_map_eq]
    simp [DocumentValue.is_container, DocumentValue.replace_bytes_with_array]
  · rw [bytes_as_arrays_map_eq]
    simp [DocumentValue.is_container, DocumentValue.replace_bytes_with_array]

/-- C9: bytes_as_arrays is not the identity on a tree with no byte-ish
leaves: a Map holding a single Bool leaf loses the Bool to Null on the
first application (and stays that way on the second), because the
non-byte-ish arm of replace_bytes_with_array never restores what std mem
take removed. -/
theorem bytes_as_arrays_not_identity :
    DocumentValue.bytes_as_arrays (.map [(strLit "a", .bool true)]) =
        .map [(strLit "a", .null)]
    ∧ DocumentValue.bytes_as_arrays (DocumentValue.bytes_as_arrays
        (.map [(strLit "a", .bool true)])) = .map [(strLit "a", .null)]
    ∧ DocumentValue.map [(strLit "a", .null)] ≠
        .map [(strLit "a", .bool true)] := by
  refine ⟨?_, ?_, ?_⟩
  · rw [bytes_as_arrays_map_eq]
    simp [DocumentValue.is_container, DocumentValue.replace_bytes_with_array]
  · rw [bytes_as_arrays_map_eq]
    simp only [List.map_cons, List.map_nil]
    rw [bytes_as_arrays_map_eq]
    simp [DocumentValue.is_container, DocumentValue.replace_bytes_with_array]
  · simp

theorem b58DigitOf_b58Char : ∀ d, d < 58 → b58DigitOf (b58Char d) = some d := by
  decide

theorem b58DigitsOf_map (ds : List Nat) (h : ∀ d ∈ ds, d < 58) :
    b58DigitsOf (ds.map b58Char) = some ds := by
  induction ds with
  | nil => rfl
  | cons d rest ih =>
    have hd : d < 58 := h d (List.mem_cons_self d rest)
    have hrest : ∀ x ∈ rest, x < 58 := fun x hx => h x (List.mem_cons_of_mem d hx)
    simp only [List.map_cons, b58DigitsOf, b58DigitOf_b58Char d hd, ih hrest]


theorem b58DigitsOf_replicate_append (z : Nat) (ds : List Nat)
    (h : ∀ d ∈ ds, d < 58) :
    b58DigitsOf (List.replicate z (b58Char 0) ++ ds.map b58Char) =
      some (List.replicate z 0 ++ ds) := by
  induction z with
  | zero => simpa using b58DigitsOf_map ds h
  | succ k ih =>
    simp only [List.replicate_succ, List.cons_append, b58DigitsOf,
      List.append_eq, b58DigitOf_b58Char 0 (by norm_num), ih]

theorem takeWhile_zero_replicate_append (z : Nat) (rest : List Nat)
    (h : rest = [] ∨ ∃ x xs, rest = x :: xs ∧ x ≠ 0) :
    (List.replicate z 0 ++ rest).takeWhile (· == 0) = List.replicate z 0 := by
  induction z with
  | zero =>
    rcases h with rfl | ⟨x, xs, rfl, hx⟩
    · rfl
    · simp [List.takeWhile_cons, hx]
  | succ k ih =>
    simp only [List.replicate_succ, List.cons_append, List.takeWhile_cons]
    simp [ih]

theorem dropWhile_zero_shape (l : List Nat) :
    l.dropWhile (· == 0) = [] ∨
      ∃ x xs, l.dropWhile (· == 0) = x :: xs ∧ x ≠ 0 := by
  induction l with
  | nil => exact Or.inl rfl
  | cons a as ih =>
    by_cases ha : a = 0
    · subst ha
      simpa [List.dropWhile_cons] using ih
    · right
      exact ⟨a, as, by simp [List.dropWhile_cons, ha], ha⟩

theorem ofDigits_replicate_zero (b z : Nat) :
    Nat.ofDigits b (List.replicate z 0) = 0 := by
  induction z with
  | zero => rfl
  | succ k ih => simp [List.replicate_succ, Nat.ofDigits_cons, ih]

theorem b58Decode_eq (s vals : List Nat) (h : b58DigitsOf s = some vals) :
    b58Decode s = .ok (List.replicate (vals.takeWhile (· == 0)).length 0 ++
      (Nat.digits 256 (Nat.ofDigits 58 vals.reverse)).reverse) := by
  unfold b58Decode
  rw [h]

/-- Round trip of the bs58 encoding modelled after the bs58 crate: for
byte sequences (every element below 256), decode inverts encode. -/
theorem b58_roundtrip (bytes : List Nat) (h : ∀ x ∈ bytes, x < 256) :
    b58Decode (b58Encode bytes) = .ok bytes := by
  have htw : bytes.takeWhile (· == 0) =
      List.replicate (bytes.takeWhile (· == 0)).length 0 := by
    apply List.eq_replicate_of_mem
    intro b hb
    have := List.mem_takeWhile_imp hb
    simpa using this
  have hsplit :
      List.replicate (bytes.takeWhile (· == 0)).length 0 ++
        bytes.dropWhile (· == 0) = bytes := by
    rw [← htw]
    exact List.takeWhile_append_dropWhile _ _
  have hrestshape := dropWhile_zero_shape bytes
  have hrestmem : ∀ x ∈ bytes.dropWhile (· == 0), x < 256 := fun x hx =>
    h x ((List.dropWhile_sublist _).subset hx)
  have hn2 : Nat.ofDigits 256 bytes.reverse =
      Nat.ofDigits 256 (bytes.dropWhile (· == 0)).reverse := by
    conv_lhs => rw [← hsplit]
    rw [List.reverse_append, List.reverse_replicate, Nat.ofDigits_append,
      ofDigits_replicate_zero]
    simp
  have hd58 : ∀ d ∈ (Nat.digits 58 (Nat.ofDigits 256 bytes.reverse)).reverse,
      d < 58 := by
    intro d hd
    exact Nat.digits_lt_base (by norm_num) (List.mem_reverse.mp hd)
  have hdec1 : b58DigitsOf (b58Encode bytes) =
      some (List.replicate (bytes.takeWhile (· == 0)).length 0 ++
        (Nat.digits 58 (Nat.ofDigits 256 bytes.reverse)).reverse) := by
    rw [b58Encode]
    exact b58DigitsOf_replicate_append _ _ hd58
  have hvshape :
      (Nat.digits 58 (Nat.ofDigits 256 bytes.reverse)).reverse = [] ∨
        ∃ x xs, (Nat.digits 58 (Nat.ofDigits 256 bytes.reverse)).reverse =
          x :: xs ∧ x ≠ 0 := by
    rcases Nat.eq_zero_or_pos (Nat.ofDigits 256 bytes.reverse) with h0 | hpos
    · left
      rw [h0, Nat.digits_zero]
      rfl
    · right
      have hnz : Nat.ofDigits 256 bytes.reverse ≠ 0 := by omega
      have hne : Nat.digits 58 (Nat.ofDigits 256 bytes.reverse) ≠ [] := by
        rw [Ne, Nat.digits_eq_nil_iff_eq_zero]
        exact hnz
      have hner : (Nat.digits 58 (Nat.ofDigits 256 bytes.reverse)).reverse ≠
          [] := by simpa using hne
      obtain ⟨x, xs, hx⟩ := List.exists_cons_of_ne_nil hner
      refine ⟨x, xs, hx, ?_⟩
      have hh : some ((Nat.digits 58 (Nat.ofDigits 256 bytes.reverse)).getLast
          hne) = some x := by
        rw [← List.getLast?_eq_getLast _ hne, List.getLast?_eq_head?_reverse,
          hx, List.head?_cons]
      injection hh with hh2
      rw [← hh2]
      exact Nat.getLast_digit_ne_zero 58 hnz
  rw [b58Decode_eq _ _ hdec1]
  rw [takeWhile_zero_replicate_append _ _ hvshape, List.length_replicate]
  rw [List.reverse_append, List.reverse_reverse, List.reverse_replicate,
    Nat.ofDigits_append, ofDigits_replicate_zero, Nat.ofDigits_digits]
  have hd256 : Nat.digits 256
      (Nat.ofDigits 256 bytes.reverse + 58 ^
        (Nat.digits 58 (Nat.ofDigits 256 bytes.reverse)).length * 0) =
      (bytes.dropWhile (· == 0)).reverse := by
    rw [Nat.mul_zero, Nat.add_zero, hn2]
    apply Nat.digits_ofDigits 256 (by norm_num)
    · intro x hx
      exact hrestmem x (List.mem_reverse.mp hx)
    · intro hne2
      rcases hrestshape with h0 | ⟨x, xs, hx, hxne⟩
      · rw [h0] at hne2
        simp at hne2
      · have hh : some ((bytes.dropWhile (· == 0)).reverse.getLast hne2) =
            some x := by
          rw [← List.getLast?_eq_getLast _ hne2,
            List.getLast?_eq_head?_reverse, List.reverse_reverse, hx,
            List.head?_cons]
        injection hh with hh2
        rw [hh2]
        exact hxne
  rw [hd256, List.reverse_reverse, hsplit]

/-- C8: dual-mode Identifier round trip.  In text mode (human true) an
Identifier serializes to the base58 string of its bytes, and
deserializing that string reproduces the original bytes exactly; in
binary mode (human false) it serializes to the raw byte string and
deserializing reproduces the identical Identifier; no transcoding loss in
either mode, for every byte sequence (elements below 256), in particular
for 0x0B repeated 32 times. -/
theorem identifier_roundtrip (data : List Nat) (h : ∀ x ∈ data, x < 256) :
    Identifier.serializeWire true ⟨data⟩ = .wstr (b58Encode data)
    ∧ Identifier.deserializeWire true (Identifier.serializeWire true ⟨data⟩) =
        .ok ⟨data⟩
    ∧ Identifier.serializeWire false ⟨data⟩ = .wbytes data
    ∧ Identifier.deserializeWire false
        (Identifier.serializeWire false ⟨data⟩) = .ok ⟨data⟩ := by
  refine ⟨rfl, ?_, rfl, ?_⟩
  · simp [Identifier.serializeWire, Identifier.deserializeWire,
      b58_roundtrip data h, Identifier.fromVec]
  · simp [Identifier.serializeWire, Identifier.deserializeWire, wireToValue,
      Identifier.fromVec]

/-- C8 witness: the round trip at the identifier built from the byte 0x0B
repeated 32 times, in both wire modes. -/
theorem identifier_roundtrip_witness :
    Identifier.deserializeWire true
        (Identifier.serializeWire true ⟨List.replicate 32 11⟩) =
      .ok ⟨List.replicate 32 11⟩
    ∧ Identifier.deserializeWire false
        (Identifier.serializeWire false ⟨List.replicate 32 11⟩) =
      .ok ⟨List.replicate 32 11⟩ :=
  ⟨(identifier_roundtrip (List.replicate 32 11) (by decide)).2.1,
   (identifier_roundtrip (List.replicate 32 11) (by decide)).2.2.2⟩
